import Mathlib

/-!
Verification of the `start-leptos` test-harness core against its
natural-language specification.

The Rust sources embedded here (shallowly) are:

* `e2e-tests/src/app_world/console_log.rs` — `ConsoleLog`,
  `ConsoleLog::new`, `ConsoleLog::from_table`, deserialization of the
  browser-captured entries, and `AppWorld::wait_for_console_logs`;
* `e2e-tests/src/utils/port_finder.rs` — `PortFinder::get_available_port`,
  both as a sequential function and as a small-step interleaving semantics
  for concurrent callers sharing the atomic `PORT_COUNTER`;
* `e2e-tests/src/utils/webdriver.rs` — driver selection in
  `Webdriver::new` and the process-lifecycle effects of
  `build_chromedriver`;
* `e2e-tests/src/leptos_server.rs` — the readiness race in
  `LeptosServer::serve_and_wait`;
* `benchmark/src/benchmarks/benchmark_result.rs` —
  `Statistics::from_timings`.

Machine integers (`u16` counters) are modelled as `Nat` with explicit
`% 65536` where the Rust value can wrap; `f64` is modelled exactly in `ℚ`
at the points where the computation is exact on the inputs considered
(the standard deviation is represented by its square, i.e. the variance,
since the final `sqrt` is the only inexact step).
-/

/-- Equality on `Except` values is decidable component-wise; used to
evaluate the embedded fallible operations on concrete inputs. -/
instance {ε α : Type} [DecidableEq ε] [DecidableEq α] :
    DecidableEq (Except ε α) := fun a b =>
  match a, b with
  | Except.error e, Except.error f =>
      if h : e = f then Decidable.isTrue (by rw [h])
      else Decidable.isFalse (by intro hh; cases hh; exact h rfl)
  | Except.error _, Except.ok _ => Decidable.isFalse (by intro hh; cases hh)
  | Except.ok _, Except.error _ => Decidable.isFalse (by intro hh; cases hh)
  | Except.ok x, Except.ok y =>
      if h : x = y then Decidable.isTrue (by rw [h])
      else Decidable.isFalse (by intro hh; cases hh; exact h rfl)

/-- Rust `String::to_lowercase` restricted to its ASCII action (every
string in the embedded code paths is ASCII): lowercase every character.
Defined directly on the character list so that it evaluates inside the
kernel. -/
def strToLower (s : String) : String :=
  String.mk (s.data.map Char.toLower)

/-- Rust `str::trim`: remove leading and trailing whitespace.  Defined
directly on the character list so that it evaluates inside the kernel. -/
def strTrim (s : String) : String :=
  String.mk
    (((s.data.dropWhile Char.isWhitespace).reverse.dropWhile
        Char.isWhitespace).reverse)

/-! ## Console logs (`e2e-tests/src/app_world/console_log.rs`) -/

/-- Rust `struct ConsoleLog { level: String, message: Vec<String> }`.
`PartialEq`/`Eq` are derived field-wise in the Rust code, matching the
derived `DecidableEq` here. -/
structure ConsoleLog where
  level : String
  message : List String
deriving DecidableEq, Repr

/-- Rust `ConsoleLog::new`: the level is lowercased and the message is
stored as a single whitespace-trimmed part. -/
def ConsoleLog.new (level : String) (message : String) : ConsoleLog :=
  { level := strToLower level, message := [strTrim message] }

/-- A browser-captured log record as produced by the injected script in
`AppWorld::goto_path`: `{ level, message: [string], timestamp }`. -/
structure RawConsoleLog where
  level : String
  message : List String
  timestamp : Nat
deriving DecidableEq, Repr

/-- Serde deserialization of a raw browser record into `ConsoleLog`:
the `timestamp` field has no counterpart in the struct and is ignored,
the `level` is taken verbatim, and `deserialize_trimmed_strings` trims
every message part. -/
def parseConsoleLog (r : RawConsoleLog) : ConsoleLog :=
  { level := r.level, message := r.message.map strTrim }

/-- Rust `ConsoleLog::from_table`, with a Gherkin table modelled as its
rows (each row a list of cell strings).  A row needs at least two cells
(message, level); the level cell is trimmed and lowercased, the message
cell trimmed, and the pair is passed to `ConsoleLog::new`. -/
def ConsoleLog.fromTable (rows : List (List String)) :
    Except String (List ConsoleLog) :=
  rows.mapM fun row =>
    match row with
    | m :: l :: _ =>
        Except.ok (ConsoleLog.new (strToLower (strTrim l)) (strTrim m))
    | _ =>
        Except.error
          ("Expected 2 columns (message, level), found " ++
            toString row.length ++ " columns")

/-- The fixed error message of `AppWorld::wait_for_console_logs` on
timeout. -/
def consoleTimeoutMsg : String := "Timed out waiting for expected console logs"

/-- Rust `AppWorld::wait_for_console_logs`.  The polling loop is embedded
with the browser state abstracted as an observation stream `obs` (the
value `get_console_logs` would return at each successive poll) and the
`tokio::time::timeout` deadline abstracted as the number `fuel` of polls
that fit before the deadline; `k` is the index of the next poll.  Each
iteration reads the logs, returns them if they equal `expected`, and
otherwise sleeps 10ms and retries; when the deadline elapses first the
fixed timeout message is returned. -/
def waitForConsoleLogs (expected : List ConsoleLog)
    (obs : Nat → List ConsoleLog) :
    Nat → Nat → Except String (List ConsoleLog)
  | 0, _ => Except.error consoleTimeoutMsg
  | fuel + 1, k =>
      let logs := obs k
      if logs = expected then Except.ok logs
      else waitForConsoleLogs expected obs fuel (k + 1)

/-! ## Port finder, sequential (`e2e-tests/src/utils/port_finder.rs`) -/

/-- The error message of `PortFinder::get_available_port` after 1000
failed attempts. -/
def noPortMsg : String :=
  "Could not find available port in range 8000-8999 after 1000 attempts"

/-- The loop body of `PortFinder::get_available_port` run by a single
caller.  `free p` tells whether a loopback TCP bind on port `p` would
succeed (the OS is the oracle).  The state threads the shared
`PORT_COUNTER` (an `AtomicU16`, hence the `% 65536` on the
fetch-and-increment) and returns the final counter together with the
dispensed port, if any.  A dispensed value `≥ 9000` stores 8000 back and
continues, consuming the iteration. -/
def getAvailablePortAux (free : Nat → Bool) :
    Nat → Nat → Nat × Option Nat
  | 0, c => (c, none)
  | fuel + 1, c =>
      let port := c
      let c1 := (c + 1) % 65536
      if 9000 ≤ port then getAvailablePortAux free fuel 8000
      else if free port then (c1, some port)
      else getAvailablePortAux free fuel c1

/-- Rust `PortFinder::get_available_port` for a single caller: 1000
attempts starting from counter value `c`, returning the final counter and
either the port or the fixed error string. -/
def getAvailablePort (free : Nat → Bool) (c : Nat) :
    Nat × Except String Nat :=
  match getAvailablePortAux free 1000 c with
  | (c1, some p) => (c1, Except.ok p)
  | (c1, none) => (c1, Except.error noPortMsg)

/-! ## Port finder, concurrent interleavings

`PortFinder::get_available_port` is called concurrently by many test
tasks sharing the atomic `PORT_COUNTER`.  The loop of one call is split
at its atomic/await points into a small-step machine: the
`fetch_add` (one atomic), the `store(8000)` reset (one atomic), and the
bind probe (one await whose success the scheduler decides, since it
depends on the OS).  A scheduler action `(i, b)` runs the next step of
call `i`, with `b` the outcome of a bind probe when that step is a
probe. -/

/-- Position of one in-flight `get_available_port` call inside its loop:
at the top of an iteration, holding a freshly dispensed counter value, or
returned (with `some p` for `Ok(p)`, `none` for the exhaustion error). -/
inductive PortPc where
  | ready : PortPc
  | holding : Nat → PortPc
  | finished : Option Nat → PortPc
deriving DecidableEq, Repr

/-- One concurrent caller: remaining loop iterations and position. -/
structure PortThread where
  fuel : Nat
  pc : PortPc
deriving DecidableEq, Repr

/-- Shared state of the concurrent system: the `PORT_COUNTER` value, the
log of ports whose bind probe succeeded, and each caller's state. -/
@[ext]
structure PortSys where
  counter : Nat
  probed : List Nat
  th : Nat → PortThread

/-- One interleaving step of caller `i := act.1`.mirror of the Rust loop:
* at the loop top with no iterations left, the call returns the error;
* at the loop top otherwise, `fetch_add(1)` dispenses the counter
  (wrapping as `u16`) and the caller now holds it;
* holding `p ≥ 9000`, the caller stores 8000 into the counter and
  continues;
* holding `p < 9000`, the caller bind-probes `p`: on success
  (`act.2 = true`) the probe is logged and `Ok(p)` is returned, otherwise
  the next iteration begins. -/
def portStep (s : PortSys) (act : Nat × Bool) : PortSys :=
  let i := act.1
  let t := s.th i
  match t.pc with
  | PortPc.ready =>
      if t.fuel = 0 then
        { s with th := fun j =>
            if j = i then ⟨0, PortPc.finished none⟩ else s.th j }
      else
        { s with
          counter := (s.counter + 1) % 65536,
          th := fun j =>
            if j = i then ⟨t.fuel - 1, PortPc.holding s.counter⟩
            else s.th j }
  | PortPc.holding p =>
      if 9000 ≤ p then
        { s with
          counter := 8000,
          th := fun j => if j = i then ⟨t.fuel, PortPc.ready⟩ else s.th j }
      else if act.2 then
        { s with
          probed := p :: s.probed,
          th := fun j =>
            if j = i then ⟨t.fuel, PortPc.finished (some p)⟩ else s.th j }
      else
        { s with th := fun j =>
            if j = i then ⟨t.fuel, PortPc.ready⟩ else s.th j }
  | PortPc.finished _ => s

/-- Run a whole schedule of interleaved steps. -/
def portRun (s : PortSys) : List (Nat × Bool) → PortSys
  | [] => s
  | a :: rest => portRun (portStep s a) rest

/-- Initial state: `PORT_COUNTER` starts at 8000 (its static initializer)
and every caller is at the top of its 1000-iteration loop. -/
def portInit : PortSys :=
  { counter := 8000, probed := [], th := fun _ => ⟨1000, PortPc.ready⟩ }

/-- `true` when the step about to be taken is not a fetch that dispenses
a value `≥ 9000`; a schedule all of whose steps satisfy this is one in
which no caller ever has to reset the counter. -/
def fetchGuard (s : PortSys) (i : Nat) : Bool :=
  match (s.th i).pc with
  | PortPc.ready =>
      if (s.th i).fuel = 0 then true else decide (s.counter < 9000)
  | _ => true

/-- A schedule is reset-free from `s` when every fetch in it dispenses a
value below 9000. -/
def noResetSched : PortSys → List (Nat × Bool) → Bool
  | _, [] => true
  | s, a :: rest => fetchGuard s a.1 && noResetSched (portStep s a) rest

/-- Caller `i` currently holds the dispensed value `p` (it is between
fetch and probe, or has returned `Ok(p)`). -/
def HoldsPort (s : PortSys) (i p : Nat) : Prop :=
  (s.th i).pc = PortPc.holding p ∨ (s.th i).pc = PortPc.finished (some p)

/-- Invariant of reset-free executions: the counter never passes 9000,
every held value is below the counter, held values are pairwise distinct
across callers, and every `Ok` port has a logged successful probe. -/
def PortInv (s : PortSys) : Prop :=
  s.counter ≤ 9000 ∧
  (∀ i p, HoldsPort s i p → p < s.counter) ∧
  (∀ i j p q, i ≠ j → HoldsPort s i p → HoldsPort s j q → p ≠ q) ∧
  (∀ i p, (s.th i).pc = PortPc.finished (some p) → p ∈ s.probed)

/-- The interleaving refuting pairwise distinctness when resets occur:
caller 0 burns its 1000 iterations on busy ports 8000–8999 (leaving the
counter at 9000), then callers 1 and 2 both fetch values `≥ 9000`, both
reset, and both are dispensed 8000, whose probe succeeds for each. -/
def resetRaceSched : List (Nat × Bool) :=
  List.replicate 2000 ((0 : Nat), false) ++
    [(1, false), (2, false), (1, false), (1, false), (1, true),
     (2, false), (2, false), (2, true)]

/-- The intermediate states of the refuting interleaving while caller 0
works alone: caller 0 is at its loop top with `f` iterations left, the
counter is at `c`, and no probe has succeeded yet. -/
def soloState (f c : Nat) : PortSys :=
  { counter := c, probed := [],
    th := fun j =>
      if j = 0 then ⟨f, PortPc.ready⟩ else ⟨1000, PortPc.ready⟩ }

/-! ## WebDriver selection (`e2e-tests/src/utils/webdriver.rs`) -/

/-- The two driver backends of `Webdriver::new`. -/
inductive DriverKind where
  | chromedriver : DriverKind
  | geckodriver : DriverKind
deriving DecidableEq, Repr

/-- The driver-selection logic of `Webdriver::new`: the argument is the
value of the `WEBDRIVER` environment variable (`none` when unset).  An
unset variable defaults to ChromeDriver; otherwise the value is
lowercased and matched against the four accepted spellings, anything
else failing with the invalid-driver error (which embeds the lowercased
value). -/
def selectWebdriver : Option String → Except String DriverKind
  | none => Except.ok DriverKind.chromedriver
  | some v =>
      let lv := strToLower v
      if lv = "chromedriver" then Except.ok DriverKind.chromedriver
      else if lv = "chrome" then Except.ok DriverKind.chromedriver
      else if lv = "geckodriver" then Except.ok DriverKind.geckodriver
      else if lv = "gecko" then Except.ok DriverKind.geckodriver
      else Except.error ("Invalid WEBDRIVER value: `" ++ lv ++ "`")

/-! ## WebDriver process lifecycle (`e2e-tests/src/utils/webdriver.rs`)

The process table is a list of `(pid, running)` pairs.  A
`tokio::process::Child` carries its `kill_on_drop` flag; the repository
code never calls `kill_on_drop(true)`, and `Webdriver` has no `Drop`
impl, so dropping the handle follows tokio's default drop semantics. -/

/-- A spawned child-process handle (`tokio::process::Child`): the OS pid
and the handle's `kill_on_drop` flag. -/
structure ChildHandle where
  pid : Nat
  killOnDrop : Bool
deriving DecidableEq, Repr

/-- `Command::spawn` as called in `build_chromedriver` /
`build_geckodriver`: a new running process enters the table and the
returned handle has `kill_on_drop` at its default `false` (the code never
sets it). -/
def spawnDriver (pt : List (Nat × Bool)) (pid : Nat) :
    ChildHandle × List (Nat × Bool) :=
  ({ pid := pid, killOnDrop := false }, (pid, true) :: pt)

/-- Modelled from tokio's documented `Drop` behavior for
`tokio::process::Child`: dropping the handle kills the process only when
`kill_on_drop(true)` was set; by default the child keeps running after
the handle is gone. -/
def dropChild (pt : List (Nat × Bool)) (c : ChildHandle) :
    List (Nat × Bool) :=
  if c.killOnDrop then
    pt.map fun e => if e.1 = c.pid then (e.1, false) else e
  else pt

/-- Dropping a `Webdriver` value: the struct has no `Drop` impl, so its
`child: Child` field is simply dropped. -/
def dropWebdriver (pt : List (Nat × Bool)) (child : ChildHandle) :
    List (Nat × Bool) :=
  dropChild pt child

/-- The process-lifecycle skeleton of `build_chromedriver`: spawn the
driver (pid `pid`), then connect; if `ClientBuilder::connect` fails
(`connectOk = false`) the `?` operator returns early and the local
`child` binding is dropped on the way out.  Returns the call's result
and the process table after the call returns. -/
def buildChromedriver (pt : List (Nat × Bool)) (pid : Nat)
    (connectOk : Bool) : Except Unit ChildHandle × List (Nat × Bool) :=
  let sp := spawnDriver pt pid
  if connectOk then (Except.ok sp.1, sp.2)
  else (Except.error (), dropChild sp.2 sp.1)

/-- Whether the process table records pid `pid` as running. -/
def processRunning (pt : List (Nat × Bool)) (pid : Nat) : Bool :=
  pt.any fun e => e.1 = pid && e.2

/-! ## Server readiness (`e2e-tests/src/leptos_server.rs`) -/

/-- Fate of the spawned server task with respect to the oneshot readiness
channel, timestamped in abstract time units: it sends the readiness
signal at time `t` (`Server::cucumber_setup` sends right after the TCP
bind succeeds), or it terminates at time `t` without having signalled
(an error return — printed and swallowed by the spawned closure — or a
panic, either way dropping the sender), or it is still running,
signal pending, at every time. -/
inductive ProducerFate where
  | signals : Nat → ProducerFate
  | crashes : Nat → ProducerFate
  | pending : ProducerFate
deriving DecidableEq, Repr

/-- The abandonment error message of `LeptosServer::serve_and_wait`. -/
def serverCrashedMsg : String := "Server crashed before becoming ready"

/-- The timeout error message of `LeptosServer::serve_and_wait` with its
interpolated deadline in seconds. -/
def serverTimeoutMsg (timeout : Nat) : String :=
  "Server failed to start within " ++ toString timeout ++ " seconds"

/-- The `tokio::time::timeout(_, rx)` race in
`LeptosServer::serve_and_wait` (its step 4): with deadline `d`, a
producer event strictly before `d` wins the race.  `Ok(Ok(()))` — the
signal arrived — yields success; `Ok(Err(_))` — the sender was dropped
without a send — yields the crash error; `Err(_)` — the deadline elapsed
with the sender still pending — yields the timeout error. -/
def serveAndWaitOutcome (d : Nat) (b : ProducerFate) :
    Except String Unit :=
  match b with
  | ProducerFate.signals t =>
      if t < d then Except.ok () else Except.error (serverTimeoutMsg d)
  | ProducerFate.crashes t =>
      if t < d then Except.error serverCrashedMsg
      else Except.error (serverTimeoutMsg d)
  | ProducerFate.pending => Except.error (serverTimeoutMsg d)

/-! ## Benchmark statistics (`benchmark/src/benchmarks/benchmark_result.rs`) -/

/-- Rust `struct Statistics`.  `avg`, `min`, `max`, `median` are `u128`
(modelled as `Nat`); the `f64` field `stddev` is represented by its
square `stddevSq : ℚ` — every arithmetic step of the Rust computation
before the final `sqrt` is exact on the integer inputs considered, so
the variance is carried exactly and `stddev = √stddevSq`. -/
structure Statistics where
  avg : Nat
  min : Nat
  max : Nat
  median : Nat
  stddevSq : ℚ
deriving DecidableEq, Repr

/-- Rust `Statistics::from_timings`.  Empty input yields all-zero
fields.  Otherwise: `avg` is the truncating integer division of the sum
by the count; `min`/`max` come from the iterator extrema; the median is
computed on a sorted copy (two middle values averaged with truncating
division for even lengths, exact middle otherwise); the variance is the
mean of squared deviations from the (truncated) average, divided by `N`
(population form). -/
def Statistics.fromTimings (timings : List Nat) : Statistics :=
  if timings.isEmpty then
    { avg := 0, min := 0, max := 0, median := 0, stddevSq := 0 }
  else
    let sum := timings.foldl (· + ·) 0
    let avg := sum / timings.length
    let mn := (timings.min?).getD 0
    let mx := (timings.max?).getD 0
    let sorted := timings.insertionSort (· ≤ ·)
    let mid := sorted.length / 2
    let median :=
      if sorted.length % 2 = 0 then
        (sorted.getD (mid - 1) 0 + sorted.getD mid 0) / 2
      else sorted.getD mid 0
    let variance : ℚ :=
      (timings.foldl (fun (acc : ℚ) (x : Nat) =>
          acc + ((x : ℚ) - (avg : ℚ)) ^ 2) 0) /
        (timings.length : ℚ)
    { avg := avg, min := mn, max := mx, median := median,
      stddevSq := variance }

/-- The even-length median exactly as the specification words it
("average of two middle elements"), read as the exact rational average of
the two middle elements of a sorted copy; for odd lengths the exact
middle element.  Used to compare the code's integer median against the
specification. -/
def medianSpecExact (timings : List Nat) : ℚ :=
  let sorted := timings.insertionSort (· ≤ ·)
  let mid := sorted.length / 2
  if sorted.length % 2 = 0 then
    ((sorted.getD (mid - 1) 0 : ℚ) + (sorted.getD mid 0 : ℚ)) / 2
  else (sorted.getD mid 0 : ℚ)

/-! ## Theorems -/

theorem waitForConsoleLogs_ok_eq (expected : List ConsoleLog)
    (obs : Nat → List ConsoleLog) :
    ∀ n k l, waitForConsoleLogs expected obs n k = Except.ok l →
      l = expected := by
  intro n
  induction n with
  | zero => intro k l h; exact absurd h (by simp [waitForConsoleLogs])
  | succ m ih =>
      intro k l h
      rw [waitForConsoleLogs] at h
      by_cases hk : obs k = expected
      · simp only [hk, if_pos rfl] at h
        cases h
        rfl
      · simp only [if_neg hk] at h
        exact ih (k + 1) l h

theorem waitForConsoleLogs_never_match (expected : List ConsoleLog)
    (obs : Nat → List ConsoleLog) (hobs : ∀ j, obs j ≠ expected) :
    ∀ n k, waitForConsoleLogs expected obs n k =
      Except.error consoleTimeoutMsg := by
  intro n
  induction n with
  | zero => intro k; rw [waitForConsoleLogs]
  | succ m ih =>
      intro k
      rw [waitForConsoleLogs]
      simp only [if_neg (hobs k)]
      exact ih (k + 1)

/-- C2: `wait_for_console_logs` polls `get_console_logs` and succeeds
only when the observed sequence is exactly `expected` (so any extra,
missing or reordered entry keeps it polling into the timeout error),
it succeeds as soon as a poll observes exactly `expected`, and the entry
equality it uses is structural on (level, whitespace-trimmed message
parts), ignoring the browser-side timestamp field.  Time is abstracted
to the poll index: `n` is the number of 10ms polls the deadline allows
and `k` the index of the next poll. -/
theorem wait_for_console_logs_exact :
    ∀ (expected : List ConsoleLog) (obs : Nat → List ConsoleLog)
      (n k : Nat),
      (∀ l, waitForConsoleLogs expected obs n k = Except.ok l →
          l = expected) ∧
      ((∀ j, obs j ≠ expected) →
          waitForConsoleLogs expected obs n k =
            Except.error consoleTimeoutMsg) ∧
      (obs k = expected → n ≠ 0 →
          waitForConsoleLogs expected obs n k = Except.ok expected) ∧
      (∀ lvl msg t1 t2,
          parseConsoleLog { level := lvl, message := msg, timestamp := t1 } =
            parseConsoleLog
              { level := lvl, message := msg, timestamp := t2 }) ∧
      (∀ r1 r2 : RawConsoleLog, r1.level = r2.level →
          r1.message.map strTrim = r2.message.map strTrim →
          parseConsoleLog r1 = parseConsoleLog r2) := by
  intro expected obs n k
  refine ⟨waitForConsoleLogs_ok_eq expected obs n k, ?_, ?_, ?_, ?_⟩
  · intro hobs; exact waitForConsoleLogs_never_match expected obs hobs n k
  · intro hk hn
    obtain ⟨m, rfl⟩ := Nat.exists_eq_succ_of_ne_zero hn
    rw [waitForConsoleLogs]
    simp [hk]
  · intro lvl msg t1 t2; rfl
  · intro r1 r2 h1 h2
    simp only [parseConsoleLog, h1, h2]

/-- C2 witness: with one expected entry and a browser that logs a
strictly larger sequence at every poll, three polls end in the timeout
error; and raw records differing only in their timestamps parse to equal
entries. -/
theorem wait_for_console_logs_exact_witness :
    waitForConsoleLogs [ConsoleLog.new "log" "A"]
        (fun _ => [ConsoleLog.new "log" "A", ConsoleLog.new "log" "B"])
        3 0 = Except.error consoleTimeoutMsg ∧
    parseConsoleLog { level := "log", message := [" A "], timestamp := 5 } =
      parseConsoleLog { level := "log", message := [" A "], timestamp := 9 } :=
  ⟨((wait_for_console_logs_exact [ConsoleLog.new "log" "A"]
        (fun _ => [ConsoleLog.new "log" "A", ConsoleLog.new "log" "B"])
        3 0).2.1
      (by
        intro j
        show [ConsoleLog.new "log" "A", ConsoleLog.new "log" "B"] ≠
          [ConsoleLog.new "log" "A"]
        decide)),
   (wait_for_console_logs_exact [] (fun _ => []) 0 0).2.2.2.1
      "log" [" A "] 5 9⟩

/-- C8 counterexample: two timed-out waits whose last-observed log
sequences differ (empty vs one error entry) return identical error
values, so the timeout error of `wait_for_console_logs` cannot carry the
last-observed state; it is the bare fixed message. -/
theorem wait_timeout_bare_message_cex :
    waitForConsoleLogs [ConsoleLog.new "log" "A"] (fun _ => []) 1 0 =
      waitForConsoleLogs [ConsoleLog.new "log" "A"]
        (fun _ => [ConsoleLog.new "error" "B"]) 1 0 ∧
    waitForConsoleLogs [ConsoleLog.new "log" "A"] (fun _ => []) 1 0 =
      Except.error consoleTimeoutMsg ∧
    ([] : List ConsoleLog) ≠ [ConsoleLog.new "error" "B"] := by decide

/-- C8 amended: when the console-log wait reaches its deadline without a
match, the returned error is the fixed string
"Timed out waiting for expected console logs"; it is the same value for
any two observation histories and carries no last-observed state. -/
theorem wait_timeout_bare_message :
    ∀ (expected : List ConsoleLog) (obs1 obs2 : Nat → List ConsoleLog)
      (n k : Nat),
      (∀ j, obs1 j ≠ expected) → (∀ j, obs2 j ≠ expected) →
      waitForConsoleLogs expected obs1 n k =
        waitForConsoleLogs expected obs2 n k ∧
      waitForConsoleLogs expected obs1 n k =
        Except.error consoleTimeoutMsg := by
  intro expected obs1 obs2 n k h1 h2
  rw [waitForConsoleLogs_never_match expected obs1 h1 n k,
    waitForConsoleLogs_never_match expected obs2 h2 n k]
  exact ⟨rfl, rfl⟩

/-- C8 amended witness: concrete instance of the two timed-out waits. -/
theorem wait_timeout_bare_message_witness :
    waitForConsoleLogs [ConsoleLog.new "log" "A"] (fun _ => []) 2 0 =
      waitForConsoleLogs [ConsoleLog.new "log" "A"]
        (fun _ => [ConsoleLog.new "warn" "C"]) 2 0 ∧
    waitForConsoleLogs [ConsoleLog.new "log" "A"] (fun _ => []) 2 0 =
      Except.error consoleTimeoutMsg :=
  wait_timeout_bare_message [ConsoleLog.new "log" "A"] (fun _ => [])
    (fun _ => [ConsoleLog.new "warn" "C"]) 2 0
    (by
      intro j
      show ([] : List ConsoleLog) ≠ [ConsoleLog.new "log" "A"]
      decide)
    (by
      intro j
      show [ConsoleLog.new "warn" "C"] ≠ [ConsoleLog.new "log" "A"]
      decide)

/-- C10: `ConsoleLog::new` stores the lowercased level and the single
trimmed message part, `from_table` lowercases the level column, level
strings differing only in case give equal entries, and comparison of an
expected entry against a parsed browser record is case-insensitive in
the expected level (the browser records carry the lowercase method
names). -/
theorem console_log_level_case_insensitive :
    ∀ (s sv m : String) (r : RawConsoleLog),
      (ConsoleLog.new s m).level = strToLower s ∧
      (ConsoleLog.new s m).message = [strTrim m] ∧
      (strToLower s = strToLower sv →
          ConsoleLog.new s m = ConsoleLog.new sv m) ∧
      (∀ m2 l2 rest, ConsoleLog.fromTable [m2 :: l2 :: rest] =
          Except.ok
            [ConsoleLog.new (strToLower (strTrim l2)) (strTrim m2)]) ∧
      (strToLower s = strToLower sv →
          (ConsoleLog.new s m = parseConsoleLog r ↔
            ConsoleLog.new sv m = parseConsoleLog r)) := by
  intro s sv m r
  refine ⟨rfl, rfl, ?_, ?_, ?_⟩
  · intro h
    simp only [ConsoleLog.new, h]
  · intro m2 l2 rest
    rfl
  · intro h
    constructor <;> intro hh
    · rw [← hh]; simp only [ConsoleLog.new, h]
    · rw [← hh]; simp only [ConsoleLog.new, h]

/-- C10 witness: `new` with an upper-case level equals `new` with the
lower-case level, and a mixed-case expected entry equals the parsed
lowercase browser record with the same trimmed message. -/
theorem console_log_level_case_insensitive_witness :
    ConsoleLog.new "ERROR" "Failed" = ConsoleLog.new "error" "Failed" ∧
    (ConsoleLog.new "Log" " A " =
        parseConsoleLog { level := "log", message := [" A"], timestamp := 7 } ↔
      ConsoleLog.new "log" " A " =
        parseConsoleLog
          { level := "log", message := [" A"], timestamp := 7 }) :=
  ⟨(console_log_level_case_insensitive "ERROR" "error" "Failed"
      { level := "", message := [], timestamp := 0 }).2.2.1 (by decide),
   (console_log_level_case_insensitive "Log" "log" " A "
      { level := "log", message := [" A"], timestamp := 7 }).2.2.2.2
      (by decide)⟩

/-- C6: on `[10, 20, 30, 40]` the statistics are avg 25, min 10, max 40,
median 25, and the variance is exactly 125, so the stored standard
deviation `√125` lies strictly between 11.18 and 11.19; on `[]` every
field is zero and no error is raised. -/
theorem statistics_concrete_values :
    Statistics.fromTimings [10, 20, 30, 40] =
      { avg := 25, min := 10, max := 40, median := 25, stddevSq := 125 } ∧
    (1118 / 100 : ℚ) ^ 2 <
      (Statistics.fromTimings [10, 20, 30, 40]).stddevSq ∧
    (Statistics.fromTimings [10, 20, 30, 40]).stddevSq <
      (1119 / 100 : ℚ) ^ 2 ∧
    Statistics.fromTimings [] =
      { avg := 0, min := 0, max := 0, median := 0, stddevSq := 0 } := by
  have h : Statistics.fromTimings [10, 20, 30, 40] =
      { avg := 25, min := 10, max := 40, median := 25, stddevSq := 125 } := by
    simp [Statistics.fromTimings, List.insertionSort, List.orderedInsert,
      List.foldl]
    norm_num
  refine ⟨h, ?_, ?_, rfl⟩
  · rw [h]; norm_num
  · rw [h]; norm_num

theorem sorted_copy_unique (l s : List Nat) (hperm : l.Perm s)
    (hsorted : s.Sorted (· ≤ ·)) :
    s = l.insertionSort (· ≤ ·) :=
  List.eq_of_perm_of_sorted
    (hperm.symm.trans (List.perm_insertionSort (· ≤ ·) l).symm) hsorted
    (List.sorted_insertionSort (· ≤ ·) l)

/-- C7 counterexample: for the timings `[1, 2, 3, 4]` the code's median
is the truncating integer quotient `(2 + 3) / 2 = 2`, not the exact
average `5/2` of the two middle elements of the sorted sequence. -/
theorem statistics_median_truncates_cex :
    ((Statistics.fromTimings [1, 2, 3, 4]).median : ℚ) ≠
      medianSpecExact [1, 2, 3, 4] ∧
    (Statistics.fromTimings [1, 2, 3, 4]).median = 2 ∧
    medianSpecExact [1, 2, 3, 4] = 5 / 2 := by
  have h1 : (Statistics.fromTimings [1, 2, 3, 4]).median = 2 := by decide
  have h2 : medianSpecExact [1, 2, 3, 4] = 5 / 2 := by
    simp [medianSpecExact, List.insertionSort, List.orderedInsert]
    norm_num
  refine ⟨?_, h1, h2⟩
  rw [h1, h2]
  norm_num

/-- C7 amended: for every non-empty timing list the median produced by
`Statistics::from_timings` is read off any sorted permutation `s` of the
input (the "sorted copy"; it is unique, so sorting a copy never disturbs
the input): for even lengths it is the truncating integer average of the
two middle elements of `s` (exact whenever their sum is even), for odd
lengths the exact middle element of `s`. -/
theorem statistics_median_sorted_copy :
    ∀ (l s : List Nat), l ≠ [] → l.Perm s → s.Sorted (· ≤ ·) →
      (l.length % 2 = 0 →
          (Statistics.fromTimings l).median =
            (s.getD (l.length / 2 - 1) 0 + s.getD (l.length / 2) 0) / 2) ∧
      (l.length % 2 = 1 →
          (Statistics.fromTimings l).median = s.getD (l.length / 2) 0) := by
  intro l s hne hperm hsorted
  have hs : s = l.insertionSort (· ≤ ·) := sorted_copy_unique l s hperm hsorted
  subst hs
  have hempty : l.isEmpty = false := by
    cases l with
    | nil => exact absurd rfl hne
    | cons a t => rfl
  have hlen : (l.insertionSort (· ≤ ·)).length = l.length :=
    (List.perm_insertionSort (· ≤ ·) l).length_eq
  constructor
  · intro hpar
    simp [Statistics.fromTimings, hempty, hlen, hpar]
  · intro hpar
    simp [Statistics.fromTimings, hempty, hlen, hpar]

/-- C7 amended witness: on the odd-length list `[3, 1, 2]`, whose sorted
copy is `[1, 2, 3]`, the median is the exact middle element 2. -/
theorem statistics_median_sorted_copy_witness :
    (Statistics.fromTimings [3, 1, 2]).median =
      List.getD [1, 2, 3] ([3, 1, 2].length / 2) 0 :=
  (statistics_median_sorted_copy [3, 1, 2] [1, 2, 3] (by decide)
      (by decide) (by decide)).2 (by decide)

/-- C9 counterexample: the value `"CHROME"` lies outside
`{chromedriver, chrome, geckodriver, gecko}`, yet `Webdriver::new`
accepts it and selects ChromeDriver instead of failing fast, because the
code lowercases the value before matching. -/
theorem webdriver_select_cex :
    selectWebdriver (some "CHROME") = Except.ok DriverKind.chromedriver ∧
    "CHROME" ∉
      (["chromedriver", "chrome", "geckodriver", "gecko"] :
        List String) := by
  constructor
  · decide
  · decide

/-- C9 amended: `Webdriver::new` matches the lowercased value of
`WEBDRIVER`: an unset variable defaults to ChromeDriver, any value whose
lowercase form is `chromedriver` or `chrome` selects ChromeDriver, any
value whose lowercase form is `geckodriver` or `gecko` selects
GeckoDriver, and any value whose lowercase form lies outside those four
fails fast with the invalid-driver error (no session is created). -/
theorem webdriver_select_lowercased :
    selectWebdriver none = Except.ok DriverKind.chromedriver ∧
    (∀ s : String,
        (strToLower s = "chromedriver" ∨ strToLower s = "chrome") →
        selectWebdriver (some s) = Except.ok DriverKind.chromedriver) ∧
    (∀ s : String,
        (strToLower s = "geckodriver" ∨ strToLower s = "gecko") →
        selectWebdriver (some s) = Except.ok DriverKind.geckodriver) ∧
    (∀ s : String,
        strToLower s ∉
          (["chromedriver", "chrome", "geckodriver", "gecko"] :
            List String) →
        selectWebdriver (some s) =
          Except.error ("Invalid WEBDRIVER value: `" ++ strToLower s ++ "`")) := by
  refine ⟨rfl, ?_, ?_, ?_⟩
  · intro s h
    rcases h with h | h <;> simp [selectWebdriver, h]
  · intro s h
    rcases h with h | h <;> simp [selectWebdriver, h]
  · intro s h
    simp only [List.mem_cons, List.mem_singleton, not_or] at h
    obtain ⟨h1, h2, h3, h4⟩ := h
    simp only [selectWebdriver]
    rw [if_neg h1, if_neg h2, if_neg h3, if_neg h4.1]

/-- C9 amended witness: `"Gecko"` selects GeckoDriver and `"headless"`
fails fast with the invalid-driver error. -/
theorem webdriver_select_lowercased_witness :
    selectWebdriver (some "Gecko") = Except.ok DriverKind.geckodriver ∧
    selectWebdriver (some "headless") =
      Except.error ("Invalid WEBDRIVER value: `" ++ strToLower "headless" ++ "`") :=
  ⟨webdriver_select_lowercased.2.2.1 "Gecko" (Or.inr (by decide)),
   webdriver_select_lowercased.2.2.2 "headless" (by decide)⟩

/-- C1: evaluation of the cleanup claim at its failing input.  When
`build_chromedriver` spawns the driver as pid 0 and
`ClientBuilder::connect` then fails, the call returns the error with the
spawned process still recorded as running — the claim requires it to be
terminated.  Likewise on the success path, dropping the resulting
`Webdriver` (which has no `Drop` impl and never set `kill_on_drop`)
leaves the driver process running. -/
theorem webdriver_child_not_killed :
    buildChromedriver [] 0 false =
      (Except.error (), [(0, true)]) ∧
    processRunning (buildChromedriver [] 0 false).2 0 = true ∧
    buildChromedriver [] 0 true =
      (Except.ok { pid := 0, killOnDrop := false }, [(0, true)]) ∧
    dropWebdriver [(0, true)] { pid := 0, killOnDrop := false } =
      [(0, true)] ∧
    processRunning
      (dropWebdriver [(0, true)] { pid := 0, killOnDrop := false }) 0 =
      true := by
  refine ⟨rfl, rfl, rfl, rfl, rfl⟩

theorem serverCrashedMsg_ne_serverTimeoutMsg (d : Nat) :
    serverCrashedMsg ≠ serverTimeoutMsg d := by
  intro h
  have h1 : serverCrashedMsg.data.take 8 =
      (serverTimeoutMsg d).data.take 8 := by rw [h]
  rw [serverTimeoutMsg, String.data_append, String.data_append,
    List.append_assoc,
    List.take_append_of_le_length (by decide)] at h1
  exact absurd h1 (by decide)

/-- C4: if the server task terminates without signaling readiness before
the deadline, `serve_and_wait` resolves to the abandonment error
"Server crashed before becoming ready", which differs from the timeout
error for every deadline; and the timeout error is returned exactly when
the deadline elapses with the sender still pending (producer still
running, or signaling/terminating only at or after the deadline). -/
theorem serve_and_wait_crash_vs_timeout :
    ∀ (d t : Nat),
      (t < d → serveAndWaitOutcome d (ProducerFate.crashes t) =
          Except.error serverCrashedMsg) ∧
      serverCrashedMsg ≠ serverTimeoutMsg d ∧
      (∀ b, serveAndWaitOutcome d b =
          Except.error (serverTimeoutMsg d) ↔
        (b = ProducerFate.pending ∨
          (∃ t0, b = ProducerFate.signals t0 ∧ d ≤ t0) ∨
          (∃ t0, b = ProducerFate.crashes t0 ∧ d ≤ t0))) := by
  intro d t
  refine ⟨?_, serverCrashedMsg_ne_serverTimeoutMsg d, ?_⟩
  · intro h
    simp [serveAndWaitOutcome, h]
  · intro b
    constructor
    · intro h
      cases b with
      | signals t0 =>
          by_cases ht : t0 < d
          · simp [serveAndWaitOutcome, ht] at h
          · exact Or.inr (Or.inl ⟨t0, rfl, Nat.le_of_not_lt ht⟩)
      | crashes t0 =>
          by_cases ht : t0 < d
          · simp [serveAndWaitOutcome, ht] at h
            exact absurd h (serverCrashedMsg_ne_serverTimeoutMsg d)
          · exact Or.inr (Or.inr ⟨t0, rfl, Nat.le_of_not_lt ht⟩)
      | pending => exact Or.inl rfl
    · intro h
      rcases h with h | ⟨t0, rfl, ht⟩ | ⟨t0, rfl, ht⟩
      · rw [h]; rfl
      · simp [serveAndWaitOutcome, Nat.not_lt.mpr ht]
      · simp [serveAndWaitOutcome, Nat.not_lt.mpr ht]

/-- C4 witness: with a 5-second deadline, a producer that terminates
unsignalled at time 2 yields the crash error, not the timeout error,
and a producer that never signals yields the timeout error. -/
theorem serve_and_wait_crash_vs_timeout_witness :
    serveAndWaitOutcome 5 (ProducerFate.crashes 2) =
      Except.error serverCrashedMsg ∧
    serverCrashedMsg ≠ serverTimeoutMsg 5 ∧
    serveAndWaitOutcome 5 ProducerFate.pending =
      Except.error (serverTimeoutMsg 5) :=
  ⟨(serve_and_wait_crash_vs_timeout 5 2).1 (by decide),
   (serve_and_wait_crash_vs_timeout 5 2).2.1,
   ((serve_and_wait_crash_vs_timeout 5 2).2.2 ProducerFate.pending).mpr
     (Or.inl rfl)⟩

theorem portAux_counter_lower (free : Nat → Bool) :
    ∀ fuel c, 8000 ≤ c → 8000 ≤ (getAvailablePortAux free fuel c).1 := by
  intro fuel
  induction fuel with
  | zero => intro c hc; exact hc
  | succ m ih =>
      intro c hc
      rw [getAvailablePortAux]
      by_cases h9 : 9000 ≤ c
      · simp only [if_pos h9]
        exact ih 8000 (le_refl 8000)
      · simp only [if_neg h9]
        have hlt : c < 9000 := Nat.lt_of_not_le h9
        have hmod : (c + 1) % 65536 = c + 1 :=
          Nat.mod_eq_of_lt (by omega)
        by_cases hf : free c = true
        · simp only [hf, if_pos rfl]
          simpa [hmod] using Nat.le_succ_of_le hc
        · simp only [hf]
          simp only [Bool.false_eq_true, if_false]
          rw [hmod]
          exact ih (c + 1) (by omega)

theorem portAux_ok_spec (free : Nat → Bool) :
    ∀ fuel c p, 8000 ≤ c →
      (getAvailablePortAux free fuel c).2 = some p →
      8000 ≤ p ∧ p < 9000 ∧ free p = true := by
  intro fuel
  induction fuel with
  | zero => intro c p _ h; exact absurd h (by simp [getAvailablePortAux])
  | succ m ih =>
      intro c p hc h
      rw [getAvailablePortAux] at h
      by_cases h9 : 9000 ≤ c
      · simp only [if_pos h9] at h
        exact ih 8000 p (le_refl 8000) h
      · simp only [if_neg h9] at h
        have hlt : c < 9000 := Nat.lt_of_not_le h9
        by_cases hf : free c = true
        · simp only [hf, if_pos rfl] at h
          cases h
          exact ⟨hc, hlt, hf⟩
        · simp only [hf, Bool.false_eq_true, if_false] at h
          have hmod : (c + 1) % 65536 = c + 1 :=
            Nat.mod_eq_of_lt (by omega)
          rw [hmod] at h
          exact ih (c + 1) p (by omega) h

theorem portAux_all_busy (free : Nat → Bool)
    (hbusy : ∀ p, 8000 ≤ p → p < 9000 → free p = false) :
    ∀ fuel c, 8000 ≤ c →
      (getAvailablePortAux free fuel c).2 = none := by
  intro fuel
  induction fuel with
  | zero => intro c _; rfl
  | succ m ih =>
      intro c hc
      rw [getAvailablePortAux]
      by_cases h9 : 9000 ≤ c
      · simp only [if_pos h9]
        exact ih 8000 (le_refl 8000)
      · simp only [if_neg h9]
        have hlt : c < 9000 := Nat.lt_of_not_le h9
        rw [hbusy c hc hlt]
        simp only [Bool.false_eq_true, if_false]
        have hmod : (c + 1) % 65536 = c + 1 :=
          Nat.mod_eq_of_lt (by omega)
        rw [hmod]
        exact ih (c + 1) (by omega)

/-- C5: starting from any counter value `c ≥ 8000` (the shared cursor
starts at 8000 and every call leaves it `≥ 8000` again, the fourth
conjunct), `get_available_port` returns `Ok(p)` only for a port
`p ∈ [8000, 9000)` whose bind probe succeeded; if every port of the range
is busy the 1000 attempts end in the no-port-available error; the first
bindable candidate is returned immediately; and a dispensed value at or
beyond 9000 consumes one of the retries while resetting (with one
attempt of fuel, a call sitting at counter 9000 returns the error without
probing anything, even if every port is free). -/
theorem get_available_port_algorithm :
    ∀ (free : Nat → Bool) (c : Nat), 8000 ≤ c →
      (∀ p, (getAvailablePort free c).2 = Except.ok p →
          8000 ≤ p ∧ p < 9000 ∧ free p = true) ∧
      ((∀ p, 8000 ≤ p → p < 9000 → free p = false) →
          (getAvailablePort free c).2 = Except.error noPortMsg) ∧
      (c < 9000 → free c = true →
          (getAvailablePort free c).2 = Except.ok c) ∧
      8000 ≤ (getAvailablePort free c).1 ∧
      (∀ f2 : Nat → Bool, (getAvailablePortAux f2 1 9000).2 = none) := by
  intro free c hc
  refine ⟨?_, ?_, ?_, ?_, ?_⟩
  · intro p h
    have hspec := portAux_ok_spec free 1000 c p hc
    rcases haux : getAvailablePortAux free 1000 c with ⟨c1, r⟩
    rw [haux] at hspec
    rw [getAvailablePort, haux] at h
    cases r with
    | none => simp at h
    | some q =>
        simp only [Except.ok.injEq] at h
        subst h
        exact hspec rfl
  · intro hbusy
    have hnone := portAux_all_busy free hbusy 1000 c hc
    rcases haux : getAvailablePortAux free 1000 c with ⟨c1, r⟩
    rw [haux] at hnone
    rw [getAvailablePort, haux]
    cases r with
    | none => rfl
    | some q => exact absurd hnone (by simp)
  · intro hlt hf
    rw [getAvailablePort]
    have h1 : getAvailablePortAux free 1000 c =
        ((c + 1) % 65536, some c) := by
      rw [getAvailablePortAux]
      simp [Nat.not_le.mpr hlt, hf]
    rw [h1]
  · have hlow := portAux_counter_lower free 1000 c hc
    rcases haux : getAvailablePortAux free 1000 c with ⟨c1, r⟩
    rw [haux] at hlow
    rw [getAvailablePort, haux]
    cases r with
    | none => exact hlow
    | some q => exact hlow
  · intro f2
    rfl

/-- C5 witness: from the initial counter 8000, a free first candidate is
returned as `Ok(8000)`, and with every port busy the 1000 attempts end in
the no-port error. -/
theorem get_available_port_algorithm_witness :
    (getAvailablePort (fun _ => true) 8000).2 = Except.ok 8000 ∧
    (getAvailablePort (fun _ => false) 8000).2 =
      Except.error noPortMsg :=
  ⟨(get_available_port_algorithm (fun _ => true) 8000 (by decide)).2.2.1
      (by decide) rfl,
   (get_available_port_algorithm (fun _ => false) 8000 (by decide)).2.1
     (fun p _ _ => rfl)⟩

theorem portStep_exhaust (s : PortSys) (i : Nat) (b : Bool)
    (h : s.th i = ⟨0, PortPc.ready⟩) :
    portStep s (i, b) =
      { s with th := fun j =>
          if j = i then ⟨0, PortPc.finished none⟩ else s.th j } := by
  simp only [portStep, h]
  simp

theorem portStep_fetch (s : PortSys) (i n : Nat) (b : Bool)
    (h : s.th i = ⟨n + 1, PortPc.ready⟩) :
    portStep s (i, b) =
      { s with
        counter := (s.counter + 1) % 65536,
        th := fun j =>
          if j = i then ⟨n, PortPc.holding s.counter⟩ else s.th j } := by
  simp only [portStep, h]
  simp

theorem portStep_reset (s : PortSys) (i n p : Nat) (b : Bool)
    (h : s.th i = ⟨n, PortPc.holding p⟩) (hp : 9000 ≤ p) :
    portStep s (i, b) =
      { s with
        counter := 8000,
        th := fun j => if j = i then ⟨n, PortPc.ready⟩ else s.th j } := by
  simp only [portStep, h, if_pos hp]

theorem portStep_probe_ok (s : PortSys) (i n p : Nat)
    (h : s.th i = ⟨n, PortPc.holding p⟩) (hp : p < 9000) :
    portStep s (i, true) =
      { s with
        probed := p :: s.probed,
        th := fun j =>
          if j = i then ⟨n, PortPc.finished (some p)⟩ else s.th j } := by
  simp only [portStep, h, if_neg (Nat.not_le.mpr hp), if_pos rfl]
  simp

theorem portStep_probe_fail (s : PortSys) (i n p : Nat)
    (h : s.th i = ⟨n, PortPc.holding p⟩) (hp : p < 9000) :
    portStep s (i, false) =
      { s with
        th := fun j => if j = i then ⟨n, PortPc.ready⟩ else s.th j } := by
  simp only [portStep, h, if_neg (Nat.not_le.mpr hp)]
  simp

theorem portStep_finished (s : PortSys) (i : Nat) (b : Bool)
    (r : Option Nat) (h : (s.th i).pc = PortPc.finished r) :
    portStep s (i, b) = s := by
  simp only [portStep, h]

theorem portInv_exhaust (s : PortSys) (i : Nat) (b : Bool)
    (hinv : PortInv s) (hth : s.th i = ⟨0, PortPc.ready⟩) :
    PortInv (portStep s (i, b)) := by
  obtain ⟨hc, hbound, hdist, hprob⟩ := hinv
  rw [portStep_exhaust s i b hth]
  refine ⟨hc, ?_, ?_, ?_⟩
  · intro j p hj
    simp only [HoldsPort] at hj ⊢
    by_cases hji : j = i
    · simp [hji] at hj
    · simp only [hji, if_false] at hj ⊢
      exact hbound j p hj
  · intro j k p q hjk hjp hkq
    simp only [HoldsPort] at hjp hkq
    by_cases hji : j = i
    · simp [hji] at hjp
    · by_cases hki : k = i
      · simp [hki] at hkq
      · simp only [hji, hki, if_false] at hjp hkq
        exact hdist j k p q hjk hjp hkq
  · intro j p hj
    simp only at hj ⊢
    by_cases hji : j = i
    · simp [hji] at hj
    · simp only [hji, if_false] at hj
      exact hprob j p hj

theorem portInv_fetch (s : PortSys) (i n : Nat) (b : Bool)
    (hinv : PortInv s) (hth : s.th i = ⟨n + 1, PortPc.ready⟩)
    (hcnt : s.counter < 9000) :
    PortInv (portStep s (i, b)) := by
  obtain ⟨hc, hbound, hdist, hprob⟩ := hinv
  rw [portStep_fetch s i n b hth]
  have hmod : (s.counter + 1) % 65536 = s.counter + 1 :=
    Nat.mod_eq_of_lt (by omega)
  refine ⟨?_, ?_, ?_, ?_⟩
  · show (s.counter + 1) % 65536 ≤ 9000
    omega
  · intro j p hj
    show p < (s.counter + 1) % 65536
    rw [hmod]
    simp only [HoldsPort] at hj
    by_cases hji : j = i
    · simp [hji] at hj
      omega
    · simp only [hji, if_false] at hj
      have := hbound j p hj
      omega
  · intro j k p q hjk hjp hkq
    simp only [HoldsPort] at hjp hkq
    by_cases hji : j = i
    · by_cases hki : k = i
      · exact absurd (hji.trans hki.symm) hjk
      · simp [hji] at hjp
        simp only [hki, if_false] at hkq
        have := hbound k q hkq
        omega
    · by_cases hki : k = i
      · simp [hki] at hkq
        simp only [hji, if_false] at hjp
        have := hbound j p hjp
        omega
      · simp only [hji, hki, if_false] at hjp hkq
        exact hdist j k p q hjk hjp hkq
  · intro j p hj
    simp only at hj ⊢
    by_cases hji : j = i
    · simp [hji] at hj
    · simp only [hji, if_false] at hj
      exact hprob j p hj

theorem portInv_probe_ok (s : PortSys) (i n p0 : Nat)
    (hinv : PortInv s) (hth : s.th i = ⟨n, PortPc.holding p0⟩)
    (hp : p0 < 9000) :
    PortInv (portStep s (i, true)) := by
  obtain ⟨hc, hbound, hdist, hprob⟩ := hinv
  rw [portStep_probe_ok s i n p0 hth hp]
  refine ⟨hc, ?_, ?_, ?_⟩
  · intro j p hj
    simp only [HoldsPort] at hj
    by_cases hji : j = i
    · simp [hji] at hj
      subst hj
      exact hbound i p0 (Or.inl (by rw [hth]))
    · simp only [hji, if_false] at hj
      exact hbound j p hj
  · intro j k p q hjk hjp hkq
    simp only [HoldsPort] at hjp hkq
    by_cases hji : j = i
    · by_cases hki : k = i
      · exact absurd (hji.trans hki.symm) hjk
      · simp [hji] at hjp
        subst hjp
        simp only [hki, if_false] at hkq
        exact hdist i k p0 q (hji ▸ hjk) (Or.inl (by rw [hth])) hkq
    · by_cases hki : k = i
      · simp [hki] at hkq
        subst hkq
        simp only [hji, if_false] at hjp
        exact hdist j i p p0 (hki ▸ hjk) hjp (Or.inl (by rw [hth]))
      · simp only [hji, hki, if_false] at hjp hkq
        exact hdist j k p q hjk hjp hkq
  · intro j p hj
    simp only at hj ⊢
    by_cases hji : j = i
    · simp [hji] at hj
      subst hj
      exact List.mem_cons_self p0 s.probed
    · simp only [hji, if_false] at hj
      exact List.mem_cons_of_mem p0 (hprob j p hj)

theorem portInv_probe_fail (s : PortSys) (i n p0 : Nat)
    (hinv : PortInv s) (hth : s.th i = ⟨n, PortPc.holding p0⟩)
    (hp : p0 < 9000) :
    PortInv (portStep s (i, false)) := by
  obtain ⟨hc, hbound, hdist, hprob⟩ := hinv
  rw [portStep_probe_fail s i n p0 hth hp]
  refine ⟨hc, ?_, ?_, ?_⟩
  · intro j p hj
    simp only [HoldsPort] at hj
    by_cases hji : j = i
    · simp [hji] at hj
    · simp only [hji, if_false] at hj
      exact hbound j p hj
  · intro j k p q hjk hjp hkq
    simp only [HoldsPort] at hjp hkq
    by_cases hji : j = i
    · simp [hji] at hjp
    · by_cases hki : k = i
      · simp [hki] at hkq
      · simp only [hji, hki, if_false] at hjp hkq
        exact hdist j k p q hjk hjp hkq
  · intro j p hj
    simp only at hj ⊢
    by_cases hji : j = i
    · simp [hji] at hj
    · simp only [hji, if_false] at hj
      exact hprob j p hj

theorem portInv_step (s : PortSys) (a : Nat × Bool)
    (hinv : PortInv s) (hg : fetchGuard s a.1 = true) :
    PortInv (portStep s a) := by
  rcases a with ⟨i, b⟩
  rcases hth : s.th i with ⟨fu, pc⟩
  cases pc with
  | ready =>
      rcases Nat.eq_zero_or_pos fu with hfu | hfu
      · subst hfu
        exact portInv_exhaust s i b hinv hth
      · obtain ⟨m, rfl⟩ : ∃ m, fu = m + 1 := ⟨fu - 1, by omega⟩
        have hcnt : s.counter < 9000 := by
          simp [fetchGuard, hth] at hg
          exact hg
        exact portInv_fetch s i m b hinv hth hcnt
  | holding p =>
      have hp : p < s.counter :=
        hinv.2.1 i p (Or.inl (by rw [hth]))
      have hp9 : p < 9000 := lt_of_lt_of_le hp hinv.1
      cases b with
      | true => exact portInv_probe_ok s i fu p hinv hth hp9
      | false => exact portInv_probe_fail s i fu p hinv hth hp9
  | finished r =>
      rw [portStep_finished s i b r (by rw [hth])]
      exact hinv

theorem portInv_init : PortInv portInit := by
  refine ⟨by decide, ?_, ?_, ?_⟩
  · intro j p hj
    simp [HoldsPort, portInit] at hj
  · intro j k p q hjk hjp hkq
    simp [HoldsPort, portInit] at hjp
  · intro j p hj
    simp [portInit] at hj

theorem portInv_run : ∀ (sched : List (Nat × Bool)) (s : PortSys),
    PortInv s → noResetSched s sched = true →
    PortInv (portRun s sched) := by
  intro sched
  induction sched with
  | nil => intro s h _; exact h
  | cons a rest ih =>
      intro s h hg
      simp only [noResetSched, Bool.and_eq_true] at hg
      rw [portRun]
      exact ih (portStep s a) (portInv_step s a h hg.1) hg.2

/-- C3 amended: in every reset-free interleaving of concurrent
`get_available_port` calls from the initial state (counter 8000, each
call with its 1000 attempts) — that is, whenever no fetch dispenses a
cursor value at or beyond 9000 — any two distinct calls that returned
`Ok` returned distinct ports, and every `Ok` port had a successful bind
probe logged for it.  (Without the reset-free hypothesis this fails: see
the reset-race counterexample.) -/
theorem get_available_port_concurrent_distinct :
    ∀ (sched : List (Nat × Bool)),
      noResetSched portInit sched = true →
      ∀ i j p q, i ≠ j →
        ((portRun portInit sched).th i).pc = PortPc.finished (some p) →
        ((portRun portInit sched).th j).pc = PortPc.finished (some q) →
        p ≠ q ∧ p ∈ (portRun portInit sched).probed ∧
          q ∈ (portRun portInit sched).probed := by
  intro sched hsched i j p q hij hi hj
  obtain ⟨hc, hbound, hdist, hprob⟩ :=
    portInv_run sched portInit portInv_init hsched
  exact ⟨hdist i j p q hij (Or.inr hi) (Or.inr hj),
    hprob i p hi, hprob j q hj⟩

/-- C3 amended witness: in the four-step reset-free interleaving where
call 0 fetches 8000 and its probe succeeds, then call 1 fetches 8001 and
its probe succeeds, the two `Ok` ports 8000 and 8001 are distinct and
both probes are logged. -/
theorem get_available_port_concurrent_distinct_witness :
    (8000 : Nat) ≠ 8001 ∧
    8000 ∈ (portRun portInit
      [(0, true), (0, true), (1, true), (1, true)]).probed ∧
    8001 ∈ (portRun portInit
      [(0, true), (0, true), (1, true), (1, true)]).probed :=
  get_available_port_concurrent_distinct
    [(0, true), (0, true), (1, true), (1, true)] (by decide)
    0 1 8000 8001 (by decide) (by decide) (by decide)

theorem portRun_append : ∀ (l1 l2 : List (Nat × Bool)) (s : PortSys),
    portRun s (l1 ++ l2) = portRun (portRun s l1) l2 := by
  intro l1
  induction l1 with
  | nil => intro l2 s; rfl
  | cons a rest ih =>
      intro l2 s
      rw [List.cons_append, portRun, portRun]
      exact ih l2 (portStep s a)

theorem soloState_th_zero (f c : Nat) :
    (soloState f c).th 0 = ⟨f, PortPc.ready⟩ := rfl

theorem solo_burn (f c : Nat) (hc : c < 9000) :
    portStep (portStep (soloState (f + 1) c) (0, false)) (0, false) =
      soloState f (c + 1) := by
  have hmod : (c + 1) % 65536 = c + 1 := Nat.mod_eq_of_lt (by omega)
  rw [portStep_fetch (soloState (f + 1) c) 0 f false rfl]
  rw [portStep_probe_fail _ 0 f c (by simp [soloState]) hc]
  ext1
  · simp only [soloState]
    exact hmod
  · rfl
  · funext j
    by_cases hj : j = 0
    · subst hj; rfl
    · simp only [soloState, if_neg hj]

theorem solo_burn_run : ∀ (k f c : Nat), c + k ≤ 9000 →
    portRun (soloState (f + k) c)
        (List.replicate (2 * k) ((0 : Nat), false)) =
      soloState f (c + k) := by
  intro k
  induction k with
  | zero => intro f c _; rfl
  | succ m ih =>
      intro f c h
      have h2 : 2 * (m + 1) = 2 * m + 1 + 1 := by ring
      rw [h2, List.replicate_succ, List.replicate_succ]
      rw [portRun, portRun]
      have hfm : f + (m + 1) = f + m + 1 := by ring
      rw [hfm, solo_burn (f + m) c (by omega)]
      have hrec := ih f (c + 1) (by omega)
      have harith : c + 1 + m = c + (m + 1) := by ring
      rw [harith] at hrec
      exact hrec

theorem portInit_eq_solo : portInit = soloState 1000 8000 := by
  ext1
  · rfl
  · rfl
  · funext j
    by_cases hj : j = 0
    · subst hj; rfl
    · simp only [portInit, soloState, if_neg hj]

/-- C3 counterexample: an explicit interleaving in which two concurrent
`get_available_port` calls both return `Ok(8000)`.  Call 0 exhausts its
1000 iterations on busy ports 8000–8999, leaving the shared counter at
9000; calls 1 and 2 then both fetch values at or beyond 9000, both reset
the counter to 8000, and are both dispensed 8000, whose bind probe
succeeds for each (the first caller released its probe listener before
the second probed).  The returned ports of the two `Ok` calls are
therefore not pairwise distinct. -/
theorem port_concurrent_distinct_cex :
    ((portRun portInit resetRaceSched).th 1).pc =
      PortPc.finished (some 8000) ∧
    ((portRun portInit resetRaceSched).th 2).pc =
      PortPc.finished (some 8000) := by
  have hburn : portRun (soloState 1000 8000)
      (List.replicate 2000 ((0 : Nat), false)) = soloState 0 9000 := by
    have h := solo_burn_run 1000 0 8000 (by norm_num)
    norm_num at h
    exact h
  have hrun : portRun portInit resetRaceSched =
      portRun (soloState 0 9000)
        [(1, false), (2, false), (1, false), (1, false), (1, true),
         (2, false), (2, false), (2, true)] := by
    rw [resetRaceSched, portInit_eq_solo, portRun_append, hburn]
  rw [hrun]
  exact ⟨rfl, rfl⟩
